import Mathlib

/-!
Shallow embedding of the employee-attrition core (the verdict
classification pipeline in `attrition_framework.py` and the analytics /
alert engine in `dashboard_backend.py`), together with theorems settling
the specification claims about it.

Python string primitives (`str.strip`, `str.title`, `str.lower`) are
modelled character-by-character for ASCII text, which covers every string
the repository manipulates.  Pandas / sklearn library calls made by the
source are modelled by executable Lean functions that follow their
documented contracts: a data frame is a list of column names plus rows,
`Series.map` over a dict is an association-list lookup, the stratified
`train_test_split` errors when some class has fewer than two members or
when either partition (test size `ceil(0.2*n)`) would hold fewer rows
than there are classes, and otherwise reserves about a fifth of each
class for the held-out partition, and `accuracy_score` is the fraction
of matching predictions.
-/

namespace EmpAttrition

/-- Model of Python `str.lower` (per-character lowercasing). -/
def pyLower (s : String) : String := ⟨s.data.map Char.toLower⟩

/-- Model of Python `str.strip`: drop whitespace at both ends. -/
def pyStrip (s : String) : String :=
  ⟨((s.data.dropWhile Char.isWhitespace).reverse.dropWhile Char.isWhitespace).reverse⟩

/-- Core of Python `str.title`: an alphabetic character is uppercased when
the previous character is not alphabetic, lowercased otherwise. -/
def titleAux : Bool → List Char → List Char
  | _, [] => []
  | prevAlpha, c :: cs =>
    (if c.isAlpha then (if prevAlpha then c.toLower else c.toUpper) else c)
      :: titleAux c.isAlpha cs

/-- Model of Python `str.title`. -/
def pyTitle (s : String) : String := ⟨titleAux false s.data⟩

/-- Normalization applied to a verdict label in `load_and_clean_data`:
`.str.strip().str.title()`. -/
def normalizeVerdict (s : String) : String := pyTitle (pyStrip s)

/-- The `verdict_map` dict of `AttritionModel.__init__`, in insertion order. -/
def verdict_map : List (String × ℕ) :=
  [("Will Leave", 1), ("Likely To Leave", 2), ("Not Decided", 3),
   ("Less Likely To Leave", 4), ("Wont Leave", 5)]

/-- Encoding a single raw label value: normalize, then look it up in
`verdict_map` (the `Series.map` of `load_and_clean_data`, per value). -/
def encodeVerdict (s : String) : Option ℕ :=
  verdict_map.lookup (normalizeVerdict s)

/-- The `reverse_verdict_map` dict, keyed by the numeric class (as the
rational the classifier produces); `.get(pred_num, "Unknown")` supplies the
sentinel for an out-of-range id (`AttritionModel.predict_textual`). -/
def decode_verdict (q : ℚ) : String :=
  ((verdict_map.map (fun p => ((p.2 : ℚ), p.1))).lookup q).getD "Unknown"

/-- Claim C6: for every valid verdict label text, decoding the encoded class
id returns the normalized form of the text, and the five canonical forms map
to class ids 1 through 5 in the fixed ordinal order. -/
theorem c6_decode_encode :
    (∀ s n, encodeVerdict s = some n → decode_verdict (n : ℚ) = normalizeVerdict s)
    ∧ encodeVerdict "Will Leave" = some 1
    ∧ encodeVerdict "Likely To Leave" = some 2
    ∧ encodeVerdict "Not Decided" = some 3
    ∧ encodeVerdict "Less Likely To Leave" = some 4
    ∧ encodeVerdict "Wont Leave" = some 5 := by
  refine ⟨?_, by decide, by decide, by decide, by decide, by decide⟩
  intro s n h
  simp only [encodeVerdict, verdict_map] at h
  by_cases h1 : normalizeVerdict s = "Will Leave"
  · simp [List.lookup, h1] at h; subst h; rw [h1]; decide
  by_cases h2 : normalizeVerdict s = "Likely To Leave"
  · simp [List.lookup, h1, h2] at h; subst h; rw [h2]; decide
  by_cases h3 : normalizeVerdict s = "Not Decided"
  · simp [List.lookup, h1, h2, h3] at h; subst h; rw [h3]; decide
  by_cases h4 : normalizeVerdict s = "Less Likely To Leave"
  · simp [List.lookup, h1, h2, h3, h4] at h; subst h; rw [h4]; decide
  by_cases h5 : normalizeVerdict s = "Wont Leave"
  · simp [List.lookup, h1, h2, h3, h4, h5] at h; subst h; rw [h5]; decide
  · exfalso
    simp only [List.lookup] at h
    repeat' split at h
    all_goals simp_all

/-- Claim C6 witness: a concrete mixed-case, padded label round-trips to its
normalized form. -/
theorem c6_decode_encode_witness :
    decode_verdict ((2 : ℕ) : ℚ) = normalizeVerdict " likely TO leave " :=
  c6_decode_encode.1 " likely TO leave " 2 (by decide)

/-- A pandas cell: missing (`NaN`), a string, or a number. -/
inductive Cell where
  | na
  | str (s : String)
  | num (q : ℚ)
deriving DecidableEq

/-- A data-frame row, as the cell stored under each column name. -/
def Row : Type := String → Cell

/-- A pandas data frame: ordered column names plus rows. -/
structure Frame where
  cols : List String
  rows : List Row

/-- Model of pandas `.astype(str)` on one cell (a missing value prints as
`"nan"`). -/
def cellToStr : Cell → String
  | .na => "nan"
  | .str s => s
  | .num q => toString q

/-- Normalization step of `load_and_clean_data`: overwrite the
`Final_Verdict` cell with its stripped, title-cased string form. -/
def normRow (r : Row) : Row := fun c =>
  if c = "Final_Verdict" then .str (normalizeVerdict (cellToStr (r "Final_Verdict")))
  else r c

/-- Mapping step of `load_and_clean_data`: add the `Final_Verdict_Num`
column by looking the (already normalized) verdict up in `verdict_map`;
an unmapped value becomes `NaN`, exactly as `Series.map` does. -/
def addNumRow (r : Row) : Row := fun c =>
  if c = "Final_Verdict_Num" then
    match verdict_map.lookup (cellToStr (r "Final_Verdict")) with
    | some n => .num n
    | none => .na
  else r c

/-- Error taxonomy of the pipeline, named after the spec's error types.
`unmappedLabels` models the `ValueError` raised by `load_and_clean_data`
(its payload is the set of offending verdict strings the code prints),
`insufficientClassData` the sklearn `ValueError` for a least-populated
class with fewer than two members, `trainSizeTooSmall` / `testSizeTooSmall`
the sklearn `ValueError`s raised when a stratified partition would hold
fewer rows than there are classes,
`featureMissing` the `KeyError` of `predict_from_dict`, `notFitted` the
sklearn error for predicting on an unfitted classifier, `noData` the
attribute error for using the frame before loading, and `unknownStrategy`
the `ValueError` of `ModelFactory.get_model` with its message. -/
inductive Err where
  | unmappedLabels (vals : List String)
  | insufficientClassData
  | trainSizeTooSmall
  | testSizeTooSmall
  | featureMissing (col : String)
  | notFitted
  | noData
  | unknownStrategy (msg : String)
deriving DecidableEq

/-- The normalized verdict text of a raw row, as `load_and_clean_data`
computes it before the map lookup. -/
def normLabel (r : Row) : String := normalizeVerdict (cellToStr (r "Final_Verdict"))

/-- The offending verdict strings of a frame: the (already normalized)
`Final_Verdict` values of the rows whose mapped `Final_Verdict_Num` cell is
missing — what `load_and_clean_data` prints via `value_counts` before
raising. -/
def badlist (f : Frame) : List String :=
  ((f.rows.map (fun r => addNumRow (normRow r))).filter
      (fun r => decide (r "Final_Verdict_Num" = Cell.na))).map
    (fun r => cellToStr (r "Final_Verdict"))

/-- The column list after `load_and_clean_data` added `Final_Verdict_Num`. -/
def loadCols (f : Frame) : List String :=
  if "Final_Verdict_Num" ∈ f.cols then f.cols else f.cols ++ ["Final_Verdict_Num"]

/-- Model of `AttritionModel.load_and_clean_data`: normalize the verdict
column, map it to numeric classes, reject the whole frame when any value is
unmapped (reporting the distinct offending normalized values, as the code's
`value_counts` print does), and otherwise drop rows with any missing value. -/
def load_and_clean (f : Frame) : Except Err Frame :=
  if (badlist f).isEmpty then
    .ok ⟨loadCols f,
      (f.rows.map (fun r => addNumRow (normRow r))).filter
        (fun r => (loadCols f).all (fun c => !decide (r c = Cell.na)))⟩
  else
    .error (.unmappedLabels (badlist f).dedup)

theorem addnorm_num (r : Row) :
    addNumRow (normRow r) "Final_Verdict_Num"
      = (match verdict_map.lookup (normLabel r) with
         | some n => Cell.num n
         | none => Cell.na) := rfl

theorem addnorm_fv (r : Row) :
    addNumRow (normRow r) "Final_Verdict" = Cell.str (normLabel r) := rfl

theorem matchna_isNone (o : Option ℕ) :
    decide ((match o with
             | some n => Cell.num (n : ℚ)
             | none => Cell.na) = Cell.na) = o.isNone := by
  cases o <;> rfl

theorem badlist_eq (f : Frame) :
    badlist f = (f.rows.filter
        (fun r => (verdict_map.lookup (normLabel r)).isNone)).map normLabel := by
  unfold badlist
  rw [List.filter_map, List.map_map]
  have hp : ((fun r : Row => decide (r "Final_Verdict_Num" = Cell.na))
        ∘ (fun r => addNumRow (normRow r)))
      = fun r => (verdict_map.lookup (normLabel r)).isNone := by
    funext r
    exact matchna_isNone _
  have hq : ((fun r : Row => cellToStr (r "Final_Verdict"))
        ∘ (fun r => addNumRow (normRow r))) = normLabel := by
    funext r
    rfl
  rw [hp, hq]

/-- Claim C2 (amended payload): `load_and_clean` fails if and only if some
row's verdict, after normalization, is outside the five canonical forms; the
error payload contains exactly the offending normalized verdict values (all
of them, not just the first), and on failure no cleaned frame is produced. -/
theorem c2_load_and_clean (f : Frame) :
    ((∃ r ∈ f.rows, verdict_map.lookup (normLabel r) = none)
      ↔ ∃ vs, load_and_clean f = .error (.unmappedLabels vs))
    ∧ (∀ vs, load_and_clean f = .error (.unmappedLabels vs) →
        ((∀ s, s ∈ vs ↔ ∃ r ∈ f.rows, normLabel r = s ∧ verdict_map.lookup s = none)
          ∧ ∀ g, load_and_clean f ≠ .ok g)) := by
  have hne : ¬(badlist f).isEmpty ↔ ∃ r ∈ f.rows, verdict_map.lookup (normLabel r) = none := by
    rw [badlist_eq, List.isEmpty_iff, List.map_eq_nil_iff, List.filter_eq_nil_iff]
    push_neg
    constructor
    · rintro ⟨r, hr, hp⟩
      exact ⟨r, hr, Option.isNone_iff_eq_none.mp (by simpa using hp)⟩
    · rintro ⟨r, hr, hp⟩
      exact ⟨r, hr, by simp [hp]⟩
  constructor
  · constructor
    · intro hex
      have hcond : (badlist f).isEmpty = false := by
        cases h : (badlist f).isEmpty
        · rfl
        · exact absurd h (hne.mpr hex)
      rw [load_and_clean, if_neg (by simp [hcond])]
      exact ⟨_, rfl⟩
    · rintro ⟨vs, hvs⟩
      by_contra hno
      rw [load_and_clean, if_pos (by
        cases h : (badlist f).isEmpty
        · exact absurd (hne.mp (by simp [h])) hno
        · rfl)] at hvs
      cases hvs
  · intro vs hvs
    have hcond : (badlist f).isEmpty = false := by
      rcases h : (badlist f).isEmpty with _ | _
      · rfl
      · rw [load_and_clean, if_pos (by simp [h])] at hvs; cases hvs
    rw [load_and_clean, if_neg (by simp [hcond])] at hvs
    have hv : vs = (badlist f).dedup := by
      cases hvs; rfl
    subst hv
    refine ⟨fun s => ?_, fun g hg => by
      rw [load_and_clean, if_neg (by simp [hcond])] at hg; cases hg⟩
    rw [List.mem_dedup, badlist_eq]
    constructor
    · rintro hmem
      rcases List.mem_map.mp hmem with ⟨r, hr, hs⟩
      rcases List.mem_filter.mp hr with ⟨hrmem, hrnone⟩
      exact ⟨r, hrmem, hs, by
        rw [← hs]; exact Option.isNone_iff_eq_none.mp (by simpa using hrnone)⟩
    · rintro ⟨r, hr, hs, hnone⟩
      exact List.mem_map.mpr ⟨r, List.mem_filter.mpr
        ⟨hr, by simp [Option.isNone_iff_eq_none, hs ▸ hnone]⟩, hs⟩

/-- A raw row whose verdict text is lowercase and padded; its normalized
form is `"Maybe"`, which no canonical verdict matches. -/
def rawRow : Row := fun c => if c = "Final_Verdict" then Cell.str " maybe " else Cell.na

/-- A one-row frame carrying the raw verdict text `" maybe "`. -/
def rawFrame : Frame := ⟨["Final_Verdict"], [rawRow]⟩

/-- Claim C2 counterexample: the aggregated error reports the normalized
value `"Maybe"`, not the raw value `" maybe "` that the row actually
carries, so the error does not report the offending raw values. -/
theorem c2_load_and_clean_cex :
    load_and_clean rawFrame = .error (.unmappedLabels ["Maybe"])
    ∧ cellToStr (rawRow "Final_Verdict") = " maybe "
    ∧ " maybe " ∉ ["Maybe"] := ⟨rfl, rfl, by decide⟩

/-- Claim C2 witness: a frame with one unmappable verdict is rejected with
an aggregated error whose payload holds exactly the offending value. -/
theorem c2_load_and_clean_witness :
    (∃ vs, load_and_clean rawFrame = .error (.unmappedLabels vs))
    ∧ ("Maybe" ∈ ["Maybe"] ↔ ∃ r ∈ rawFrame.rows,
        normLabel r = "Maybe" ∧ verdict_map.lookup "Maybe" = none) :=
  ⟨(c2_load_and_clean rawFrame).1.mp ⟨rawRow, by simp [rawFrame], rfl⟩,
   ((c2_load_and_clean rawFrame).2 ["Maybe"] rfl).1 "Maybe"⟩

/-- Columns dropped from the feature matrix by `AttritionModel.train` and
`AttritionModel.get_column_names`. -/
def dropped_cols : List String := ["Final_Verdict", "Final_Verdict_Num", "emp_id"]

/-- Model of `AttritionModel.get_column_names` (and of the `df.drop` in
`train`): all frame columns except the label and identifier columns, in
frame order (`errors="ignore"` makes absent drop targets harmless). -/
def get_column_names (cols : List String) : List String :=
  cols.filter (fun c => decide (c ∉ dropped_cols))

/-- Claim C9: `get_column_names` excludes exactly the identifier column
`emp_id` and the two label columns, keeps every other column in the frame's
order, and is stable across repeated calls on the same frame. -/
theorem c9_get_column_names (cols : List String) :
    (∀ c, c ∈ get_column_names cols ↔ (c ∈ cols ∧ c ∉ dropped_cols))
    ∧ List.Sublist (get_column_names cols) cols
    ∧ get_column_names cols = get_column_names cols := by
  refine ⟨fun c => ?_, List.filter_sublist _, rfl⟩
  simp [get_column_names]

/-- Claim C9 witness: on a concrete frame's columns the derived feature list
keeps exactly the non-label, non-identifier columns in order. -/
theorem c9_get_column_names_witness :
    ("Q1" ∈ get_column_names ["emp_id", "Q1", "Q2", "Final_Verdict", "Final_Verdict_Num"]
      ↔ ("Q1" ∈ ["emp_id", "Q1", "Q2", "Final_Verdict", "Final_Verdict_Num"]
          ∧ "Q1" ∉ dropped_cols))
    ∧ ("emp_id" ∈ get_column_names ["emp_id", "Q1", "Q2", "Final_Verdict", "Final_Verdict_Num"]
      ↔ ("emp_id" ∈ ["emp_id", "Q1", "Q2", "Final_Verdict", "Final_Verdict_Num"]
          ∧ "emp_id" ∉ dropped_cols)) :=
  ⟨(c9_get_column_names _).1 "Q1", (c9_get_column_names _).1 "emp_id"⟩

/-- Numeric value of a cell (feature cells are numeric after cleaning; the
default 0 is never hit on cleaned data). -/
def cellNum : Cell → ℚ
  | .num q => q
  | _ => 0

/-- The positional feature vector of a row, in the Feature Contract's
column order (the `df.drop` of `AttritionModel.train`). -/
def rowVec (cols : List String) (r : Row) : List ℚ :=
  (get_column_names cols).map (fun c => cellNum (r c))

/-- The numeric class label of a row (`Final_Verdict_Num`). -/
def rowLabel (r : Row) : ℚ := cellNum (r "Final_Verdict_Num")

/-- The label column `y` of a frame, as `AttritionModel.train` reads it. -/
def ys (f : Frame) : List ℚ := f.rows.map rowLabel

/-- The rows belonging to one verdict class. -/
def classGroup (rows : List Row) (v : ℚ) : List Row :=
  rows.filter (fun r => decide (rowLabel r = v))

/-- A fifth, rounded up: sklearn's held-out size `ceil(0.2 * n)` for
`test_size=0.2`.  Applied to the whole frame it is the test-partition size
the split validates; applied per class it is the class's held-out share, so
a class with at least two members lands in both partitions. -/
def testCount (n : ℕ) : ℕ := (n + 4) / 5

/-- The partition of sklearn's stratified `train_test_split(test_size=0.2)`:
per class, about a fifth of the rows go to the held-out partition and the
rest to training.  Returns (test, train).  sklearn distributes the exact
global test size over the classes proportionally and picks rows by a seeded
random permutation; the per-class rounding and take-first selection here
stand in for that — the claims proved are insensitive to which qualifying
rows land in which partition. -/
def stratSplit (rows : List Row) : List Row × List Row :=
  let classes := (rows.map rowLabel).dedup
  (classes.flatMap (fun v => (classGroup rows v).take (testCount (classGroup rows v).length)),
   classes.flatMap (fun v => (classGroup rows v).drop (testCount (classGroup rows v).length)))

/-- A classifier learning algorithm: from labeled training vectors to a
prediction function.  The RandomForest of `RandomForestStrategy` is one
inhabitant; the claims quantify over all of them. -/
def Classifier : Type := List (List ℚ × ℚ) → List ℚ → ℚ

/-- Model of `sklearn.metrics.accuracy_score`: fraction of positions where
prediction equals truth. -/
def accuracy_score (truth preds : List ℚ) : ℚ :=
  (((truth.zip preds).countP (fun p => decide (p.1 = p.2)) : ℕ) : ℚ) / ((truth.length : ℕ) : ℚ)

/-- Model of `AttritionModel.train`: drop label/identifier columns, split
with stratification, fit the strategy on the training partition and score
it on the held-out partition.  The error checks are the ones sklearn's
`StratifiedShuffleSplit` performs in order: a least-populated class with
fewer than two members, a train partition smaller than the number of
classes, a test partition (`ceil(0.2*n)` rows) smaller than the number of
classes.  Returns the held-out accuracy and the fitted prediction
function. -/
def train (f : Frame) (clf : Classifier) : Except Err (ℚ × (List ℚ → ℚ)) :=
  if ((f.rows.map rowLabel).dedup).any
      (fun v => decide ((classGroup f.rows v).length < 2)) then
    .error .insufficientClassData
  else if f.rows.length - testCount f.rows.length
      < ((f.rows.map rowLabel).dedup).length then
    .error .trainSizeTooSmall
  else if testCount f.rows.length < ((f.rows.map rowLabel).dedup).length then
    .error .testSizeTooSmall
  else
    let tt := stratSplit f.rows
    let model := clf (tt.2.map (fun r => (rowVec f.cols r, rowLabel r)))
    .ok (accuracy_score (tt.1.map rowLabel) (tt.1.map (fun r => model (rowVec f.cols r))), model)

theorem lookup_verdict_val {s : String} {n : ℕ}
    (h : verdict_map.lookup s = some n) : ((n : ℚ)) ∈ ([1, 2, 3, 4, 5] : List ℚ) := by
  simp only [verdict_map, List.lookup] at h
  repeat' split at h
  all_goals first
    | (cases h; decide)
    | cases h

theorem load_labels_mem {f f' : Frame} (hload : load_and_clean f = .ok f') :
    ∀ v ∈ ys f', v ∈ ([1, 2, 3, 4, 5] : List ℚ) := by
  rw [load_and_clean] at hload
  split at hload
  · rename_i hempty
    cases hload
    have hnone : ∀ r ∈ f.rows, (verdict_map.lookup (normLabel r)).isNone = false := by
      have h0 : badlist f = [] := List.isEmpty_iff.mp hempty
      rw [badlist_eq] at h0
      intro r hr
      have := List.filter_eq_nil_iff.mp (List.map_eq_nil_iff.mp h0) r hr
      simpa using this
    intro v hv
    rcases List.mem_map.mp hv with ⟨r, hr, hrl⟩
    rcases List.mem_filter.mp hr with ⟨hrmem, _⟩
    rcases List.mem_map.mp hrmem with ⟨r0, hr0, hr0eq⟩
    rcases ho : verdict_map.lookup (normLabel r0) with _ | n
    · have := hnone r0 hr0
      rw [ho] at this
      cases this
    · have hlab : rowLabel r = (n : ℚ) := by
        rw [← hr0eq, rowLabel, addnorm_num, ho]
        rfl
      rw [← hrl, hlab]
      exact lookup_verdict_val ho
  · cases hload

theorem accuracy_score_bounds (truth preds : List ℚ) :
    0 ≤ accuracy_score truth preds ∧ accuracy_score truth preds ≤ 1 := by
  constructor
  · exact div_nonneg (by positivity) (by positivity)
  · rcases Nat.eq_zero_or_pos truth.length with h0 | hpos
    · simp [accuracy_score, h0]
    · rw [accuracy_score, div_le_one (by exact_mod_cast hpos)]
      have h1 : (truth.zip preds).countP (fun p => decide (p.1 = p.2))
          ≤ (truth.zip preds).length := List.countP_le_length _
      have h2 : (truth.zip preds).length ≤ truth.length := by
        rw [List.length_zip]; exact Nat.min_le_left _ _
      exact_mod_cast le_trans h1 h2

/-- Claim C3 (amended): on a loaded record set in which each of the five
verdict classes has at least two examples, `train` never raises the
insufficient-class-data error; and when the record set also has at least 21
rows — so the 20% held-out partition holds at least as many rows as the
five classes, as sklearn's stratified split requires — training succeeds
and produces a held-out accuracy in [0, 1], for every classifier
strategy. -/
theorem c3_train (f f' : Frame) (clf : Classifier)
    (hload : load_and_clean f = .ok f')
    (hcnt : ∀ v ∈ ([1, 2, 3, 4, 5] : List ℚ), 2 ≤ (ys f').count v) :
    train f' clf ≠ .error Err.insufficientClassData
    ∧ (21 ≤ f'.rows.length →
        ∃ res, train f' clf = .ok res ∧ 0 ≤ res.1 ∧ res.1 ≤ 1) := by
  have hgrp : ∀ v, (classGroup f'.rows v).length = (ys f').count v := by
    intro v
    rw [classGroup, ← List.countP_eq_length_filter, ys, List.count_eq_countP,
      List.countP_map]
    refine List.countP_congr (fun r _ => ?_)
    simp only [Function.comp, decide_eq_true_eq, beq_iff_eq]
  have hcond : ((f'.rows.map rowLabel).dedup).any
      (fun v => decide ((classGroup f'.rows v).length < 2)) = false := by
    rw [List.any_eq_false]
    intro v hv
    have hv' : v ∈ ys f' := List.mem_dedup.mp hv
    have h2 : 2 ≤ (ys f').count v := hcnt v (load_labels_mem hload v hv')
    simp [hgrp v, Nat.not_lt, h2]
  have hcls : ¬(((f'.rows.map rowLabel).dedup).any
      (fun v => decide ((classGroup f'.rows v).length < 2)) = true) := by
    simp [hcond]
  constructor
  · intro hbad
    rw [train, if_neg hcls] at hbad
    split at hbad
    · simp at hbad
    split at hbad
    · simp at hbad
    · simp at hbad
  · intro hsize
    have hcl : ((f'.rows.map rowLabel).dedup).length ≤ 5 := by
      have h1 : ((f'.rows.map rowLabel).dedup).toFinset.card
          = ((f'.rows.map rowLabel).dedup).length :=
        List.toFinset_card_of_nodup (List.nodup_dedup _)
      have h2 : ((f'.rows.map rowLabel).dedup).toFinset
          ⊆ ([1, 2, 3, 4, 5] : List ℚ).toFinset := by
        intro v hv
        rw [List.mem_toFinset] at hv ⊢
        exact load_labels_mem hload v (List.mem_dedup.mp hv)
      have h3 := Finset.card_le_card h2
      have h4 : ([1, 2, 3, 4, 5] : List ℚ).toFinset.card ≤ 5 :=
        List.toFinset_card_le _
      omega
    have h5 : testCount f'.rows.length * 5 ≤ f'.rows.length + 4 :=
      Nat.div_mul_le_self _ _
    have h6 : 5 ≤ testCount f'.rows.length :=
      (Nat.le_div_iff_mul_le (by norm_num)).mpr (by omega)
    rw [train, if_neg hcls,
      if_neg (show ¬(f'.rows.length - testCount f'.rows.length
        < ((f'.rows.map rowLabel).dedup).length) from by omega),
      if_neg (show ¬(testCount f'.rows.length
        < ((f'.rows.map rowLabel).dedup).length) from by omega)]
    exact ⟨_, rfl, (accuracy_score_bounds _ _).1, (accuracy_score_bounds _ _).2⟩

/-- A concrete survey row with an id, one question score, and a verdict. -/
def mkSampleRow (id q1 : ℚ) (v : String) : Row := fun c =>
  if c = "emp_id" then Cell.num id
  else if c = "Q1" then Cell.num q1
  else if c = "Final_Verdict" then Cell.str v
  else Cell.na

/-- A ten-row record set with all five verdict classes, two examples each. -/
def sampleFrame : Frame :=
  ⟨["emp_id", "Q1", "Final_Verdict"],
   [mkSampleRow 1 1 "Will Leave", mkSampleRow 2 2 "Will Leave",
    mkSampleRow 3 3 "Likely To Leave", mkSampleRow 4 4 "Likely To Leave",
    mkSampleRow 5 5 "Not Decided", mkSampleRow 6 1 "Not Decided",
    mkSampleRow 7 2 "Less Likely To Leave", mkSampleRow 8 3 "Less Likely To Leave",
    mkSampleRow 9 4 "Wont Leave", mkSampleRow 10 5 "Wont Leave"]⟩

/-- The cleaned form of `sampleFrame`. -/
def sampleClean : Frame := ((load_and_clean sampleFrame).toOption).getD ⟨[], []⟩

/-- A trivial classifier strategy: always predict class 1. -/
def constClf : Classifier := fun _ _ => 1

/-- Claim C3 counterexample: the ten-row record set has every verdict class
twice, yet training produces no accuracy — its 20% held-out partition
(2 rows) is smaller than the 5 classes, so the stratified split raises
sklearn's test-size error. -/
theorem c3_train_cex :
    train sampleClean constClf = .error Err.testSizeTooSmall
    ∧ sampleClean.rows.length = 10
    ∧ (∀ v ∈ ([1, 2, 3, 4, 5] : List ℚ), 2 ≤ (ys sampleClean).count v) :=
  ⟨rfl, rfl, by decide⟩

/-- A twenty-five-row record set with five examples of each verdict class —
large enough for the 20% held-out partition to hold all five classes. -/
def bigFrame : Frame :=
  ⟨["emp_id", "Q1", "Final_Verdict"],
   ["Will Leave", "Likely To Leave", "Not Decided", "Less Likely To Leave",
    "Wont Leave"].flatMap (fun v =>
      (List.range 5).map (fun j => mkSampleRow ((j + 1 : ℕ) : ℚ) ((j + 1 : ℕ) : ℚ) v))⟩

/-- The cleaned form of `bigFrame`. -/
def bigClean : Frame := ((load_and_clean bigFrame).toOption).getD ⟨[], []⟩

/-- Claim C3 witness: on the concrete twenty-five-row record set with every
class five times, training avoids the insufficient-class-data error and
succeeds with an accuracy in [0, 1]. -/
theorem c3_train_witness :
    train bigClean constClf ≠ .error Err.insufficientClassData
    ∧ (∃ res, train bigClean constClf = .ok res ∧ 0 ≤ res.1 ∧ res.1 ≤ 1) :=
  ⟨(c3_train bigFrame bigClean constClf rfl (by decide)).1,
   (c3_train bigFrame bigClean constClf rfl (by decide)).2 (by decide)⟩

/-- An apostrophe, as used in the factory's error message. -/
def apos : String := String.singleton (Char.ofNat 39)

/-- The strategies the factory can build (`RandomForestStrategy` is the
only registered one). -/
inductive MStrategy where
  | randomForest
deriving DecidableEq

/-- The strategy names `ModelFactory.get_model` recognizes. -/
def known_models : List String := ["randomforest"]

/-- The message of the `ValueError` raised for an unrecognized name. -/
def unknown_model_msg (name : String) : String :=
  ("❌ Model " ++ apos) ++ name ++ (apos ++ " is not implemented yet.")

/-- Model of `ModelFactory.get_model`: lowercase the name, compare against
the single registered strategy, raise otherwise. -/
def get_model (name : String) : Except Err MStrategy :=
  if pyLower name = "randomforest" then .ok .randomForest
  else .error (.unknownStrategy (unknown_model_msg name))

/-- The in-memory state of an `AttritionModel`: the cleaned frame once
loaded, and the fitted prediction function once trained. -/
structure ModelState where
  df : Option Frame
  fitted : Option (List ℚ → ℚ)

/-- The positional input array built by `predict_from_dict`'s list
comprehension: walking the contract columns in order, it stops at the first
column absent from the input map (Python's `KeyError`). -/
def buildInput (input : String → Option ℚ) : List String → Except Err (List ℚ)
  | [] => .ok []
  | c :: cs =>
    match input c with
    | none => .error (.featureMissing c)
    | some v => (buildInput input cs).map (fun t => v :: t)

/-- Model of `AttritionModel.predict_numeric`: predicting on an unfitted
strategy is sklearn's not-fitted error. -/
def predict_numeric (m : ModelState) (arr : List ℚ) : Except Err ℚ :=
  match m.fitted with
  | none => .error .notFitted
  | some fn => .ok (fn arr)

/-- Model of `AttritionModel.predict_textual`. -/
def predict_textual (m : ModelState) (arr : List ℚ) : Except Err String :=
  (predict_numeric m arr).map decode_verdict

/-- Model of `AttritionController.predict_from_dict`: read the contract
columns off the loaded frame, assemble the positional array from the input
map, and classify. -/
def predict_from_dict (m : ModelState) (input : String → Option ℚ) : Except Err String :=
  match m.df with
  | none => .error .noData
  | some f =>
    match buildInput input (get_column_names f.cols) with
    | .error e => .error e
    | .ok arr => predict_textual m arr

/-- The facade controller: it only exists fully constructed. -/
structure Controller where
  model : ModelState

/-- Model of `AttritionController.__init__`: build the strategy via the
factory, load and clean the data, train — any failure aborts construction. -/
def mkController (csv : Frame) (model_name : String) (clf : Classifier) :
    Except Err Controller :=
  match get_model model_name with
  | .error e => .error e
  | .ok _ =>
    match load_and_clean csv with
    | .error e => .error e
    | .ok f =>
      match train f clf with
      | .error e => .error e
      | .ok res => .ok ⟨⟨some f, some res.2⟩⟩

theorem buildInput_error_iff (inp : String → Option ℚ) (cols : List String) (col : String) :
    (buildInput inp cols = .error (.featureMissing col)
      ↔ cols.find? (fun c => (inp c).isNone) = some col) := by
  induction cols with
  | nil => simp [buildInput]
  | cons c cs ih =>
    rw [buildInput]
    rcases h : inp c with _ | v
    · simp [List.find?_cons_of_pos, h]
    · rw [List.find?_cons_of_neg _ (by simp [h]), ← ih]
      rcases hb : buildInput inp cs with e | arr <;> simp [hb, Except.map]

theorem buildInput_error_shape (inp : String → Option ℚ) (cols : List String)
    (e : Err) (h : buildInput inp cols = .error e) : ∃ col, e = .featureMissing col := by
  induction cols with
  | nil => cases h
  | cons c cs ih =>
    rw [buildInput] at h
    rcases hc : inp c with _ | v
    · rw [hc] at h
      cases h
      exact ⟨c, rfl⟩
    · rw [hc] at h
      rcases hb : buildInput inp cs with e' | arr
      · rw [hb] at h
        cases h
        exact ih hb
      · rw [hb] at h
        cases h

theorem buildInput_ok_of (inp : String → Option ℚ) (cols : List String)
    (h : ∀ c ∈ cols, (inp c).isSome) :
    buildInput inp cols = .ok (cols.map (fun c => (inp c).getD 0)) := by
  induction cols with
  | nil => rfl
  | cons c cs ih =>
    rcases hc : inp c with _ | v
    · exact absurd (h c (by simp)) (by simp [hc])
    · rw [buildInput, hc, ih (fun x hx => h x (by simp [hx])), List.map_cons]
      simp [Except.map, hc]

/-- Claim C1 (amended): on a trained service, `predict_from_dict` fails with
a feature-mismatch error if and only if some contract column is absent from
the input map, but the error names only the first missing column in
contract order rather than all of them; when nothing is missing the input
is assembled into the positional array in exactly the contract's column
order and classified. -/
theorem c1_predict (m : ModelState) (f : Frame) (fn : List ℚ → ℚ)
    (input : String → Option ℚ)
    (hdf : m.df = some f) (hfit : m.fitted = some fn) :
    ((∃ col, predict_from_dict m input = .error (.featureMissing col))
      ↔ ∃ col ∈ get_column_names f.cols, input col = none)
    ∧ (∀ col, predict_from_dict m input = .error (.featureMissing col)
        → (get_column_names f.cols).find? (fun c => (input c).isNone) = some col)
    ∧ ((∀ col ∈ get_column_names f.cols, (input col).isSome)
        → predict_from_dict m input
          = .ok (decode_verdict (fn ((get_column_names f.cols).map
              (fun c => (input c).getD 0))))) := by
  have hpfd : predict_from_dict m input
      = match buildInput input (get_column_names f.cols) with
        | .error e => .error e
        | .ok arr => predict_textual m arr := by
    rw [predict_from_dict, hdf]
  refine ⟨⟨?_, ?_⟩, ?_, ?_⟩
  · rintro ⟨col, hcol⟩
    rw [hpfd] at hcol
    rcases hb : buildInput input (get_column_names f.cols) with e | arr
    · simp only [hb] at hcol
      cases hcol
      have hfind := (buildInput_error_iff input _ col).mp hb
      exact ⟨col, List.mem_of_find?_eq_some hfind, by
        simpa using List.find?_some hfind⟩
    · simp [hb, predict_textual, predict_numeric, hfit, Except.map] at hcol
  · rintro ⟨col, hmem, hnone⟩
    have hsome : ((get_column_names f.cols).find? (fun c => (input c).isNone)).isSome := by
      rw [List.find?_isSome]
      exact ⟨col, hmem, by simp [hnone]⟩
    rcases hfind : (get_column_names f.cols).find? (fun c => (input c).isNone) with _ | col0
    · rw [hfind] at hsome
      cases hsome
    · refine ⟨col0, ?_⟩
      rw [hpfd, (buildInput_error_iff input _ col0).mpr hfind]
  · intro col hcol
    rw [hpfd] at hcol
    rcases hb : buildInput input (get_column_names f.cols) with e | arr
    · simp only [hb] at hcol
      cases hcol
      exact (buildInput_error_iff input _ col).mp hb
    · simp [hb, predict_textual, predict_numeric, hfit, Except.map] at hcol
  · intro hall
    rw [hpfd, buildInput_ok_of input _ hall]
    simp [predict_textual, predict_numeric, hfit, Except.map]

/-- A trained-state frame whose Feature Contract is `["A", "B"]`. -/
def cexFrame : Frame := ⟨["A", "B", "Final_Verdict"], []⟩

/-- A trained model over `cexFrame` with a constant fitted classifier. -/
def cexModel : ModelState := ⟨some cexFrame, some (fun _ => 1)⟩

/-- The empty input map: every column is missing. -/
def noInput : String → Option ℚ := fun _ => none

/-- Claim C1 counterexample: with both contract columns `"A"` and `"B"`
missing from the input, the raised error carries only `"A"` (the first
missing column), so the error does not list all missing columns. -/
theorem c1_predict_cex :
    predict_from_dict cexModel noInput = .error (.featureMissing "A")
    ∧ (get_column_names cexFrame.cols).filter (fun c => (noInput c).isNone)
        = ["A", "B"] := ⟨rfl, rfl⟩

/-- An input map supplying both contract columns of `cexFrame`. -/
def fullInput : String → Option ℚ := fun c => if c = "A" then some 4 else some 5

/-- Claim C1 witness: on the concrete trained model, the missing-feature
error occurs for the empty input, and a complete input is assembled in
contract order and classified. -/
theorem c1_predict_witness :
    (∃ col, predict_from_dict cexModel noInput = .error (.featureMissing col))
    ∧ predict_from_dict cexModel fullInput
        = .ok (decode_verdict ((fun _ => (1 : ℚ))
            ((get_column_names cexFrame.cols).map (fun c => (fullInput c).getD 0)))) :=
  ⟨(c1_predict cexModel cexFrame (fun _ => 1) noInput rfl rfl).1.mpr
      ⟨"A", by decide, rfl⟩,
   (c1_predict cexModel cexFrame (fun _ => 1) fullInput rfl rfl).2.2
      (fun c _ => by rw [fullInput]; split <;> rfl)⟩

theorem mkController_state (csv : Frame) (name : String) (clf : Classifier)
    (c : Controller) (h : mkController csv name clf = .ok c) :
    ∃ f res, load_and_clean csv = .ok f ∧ train f clf = .ok res
      ∧ c.model.df = some f ∧ c.model.fitted = some res.2 := by
  rw [mkController] at h
  rcases hg : get_model name with e | s
  · simp only [hg] at h
    exact Except.noConfusion h
  · simp only [hg] at h
    rcases hl : load_and_clean csv with e | f
    · simp only [hl] at h
      exact Except.noConfusion h
    · simp only [hl] at h
      rcases ht : train f clf with e | res
      · simp only [ht] at h
        exact Except.noConfusion h
      · simp only [ht] at h
        cases h
        exact ⟨f, res, rfl, ht, rfl, rfl⟩

/-- Claim C10: every successfully constructed controller has already loaded
and trained inside the constructor, so through the facade the service is
always in the Trained state: `predict_from_dict` can never fail with the
unloaded-data or not-fitted error. -/
theorem c10_controller_trained (csv : Frame) (name : String) (clf : Classifier)
    (c : Controller) (h : mkController csv name clf = .ok c) :
    c.model.df.isSome ∧ c.model.fitted.isSome
    ∧ ∀ input, predict_from_dict c.model input ≠ .error .noData
        ∧ predict_from_dict c.model input ≠ .error .notFitted := by
  rcases mkController_state csv name clf c h with ⟨f, res, _, _, hdf, hfit⟩
  refine ⟨by simp [hdf], by simp [hfit], fun input => ?_⟩
  have hpfd : predict_from_dict c.model input
      = match buildInput input (get_column_names f.cols) with
        | .error e => .error e
        | .ok arr => predict_textual c.model arr := by
    rw [predict_from_dict, hdf]
  constructor <;> rw [hpfd] <;>
    rcases hb : buildInput input (get_column_names f.cols) with e | arr <;>
    simp only [] <;> intro hbad
  · rcases buildInput_error_shape input _ e hb with ⟨col, rfl⟩
    cases hbad
  · rw [predict_textual, predict_numeric, hfit] at hbad
    cases hbad
  · rcases buildInput_error_shape input _ e hb with ⟨col, rfl⟩
    cases hbad
  · rw [predict_textual, predict_numeric, hfit] at hbad
    cases hbad

/-- The controller built by the facade on the concrete twenty-five-row
record set. -/
def sampleController : Controller :=
  ((mkController bigFrame "randomforest" constClf).toOption).getD ⟨⟨none, none⟩⟩

/-- Claim C10 witness: the concrete facade construction succeeds, leaves the
service trained, and a concrete prediction call hits neither the unloaded
nor the not-fitted error. -/
theorem c10_controller_trained_witness :
    sampleController.model.df.isSome ∧ sampleController.model.fitted.isSome
    ∧ (predict_from_dict sampleController.model (fun _ => some 3) ≠ .error .noData
        ∧ predict_from_dict sampleController.model (fun _ => some 3) ≠ .error .notFitted) :=
  ⟨(c10_controller_trained bigFrame "randomforest" constClf sampleController rfl).1,
   (c10_controller_trained bigFrame "randomforest" constClf sampleController rfl).2.1,
   (c10_controller_trained bigFrame "randomforest" constClf sampleController rfl).2.2
     (fun _ => some 3)⟩

/-- Claim C8 (amended): the factory resolves strategy names
case-insensitively, and an unregistered name fails with an error whose
message names the requested strategy — but not the set of known names. -/
theorem c8_get_model :
    (∀ name, pyLower name = "randomforest" → get_model name = .ok .randomForest)
    ∧ (∀ name, pyLower name ≠ "randomforest" →
        get_model name = .error (.unknownStrategy (unknown_model_msg name))
        ∧ List.IsInfix name.data (unknown_model_msg name).data) := by
  constructor
  · intro name h
    rw [get_model, if_pos h]
  · intro name h
    refine ⟨by rw [get_model, if_neg h], ?_⟩
    exact ⟨("❌ Model " ++ apos).data, (apos ++ " is not implemented yet.").data, rfl⟩

/-- Claim C8 counterexample: the error message for the unregistered name
`"svm"` does not contain the registered strategy name `"randomforest"`, so
the error does not list the set of known strategy names. -/
theorem c8_get_model_cex :
    get_model "svm" = .error (.unknownStrategy (unknown_model_msg "svm"))
    ∧ "randomforest" ∈ known_models
    ∧ ¬ List.IsInfix "randomforest".data (unknown_model_msg "svm").data :=
  ⟨rfl, by decide, by decide⟩

/-- Claim C8 witness: a mixed-case registered name resolves, and the
unregistered name `"svm"` fails with a message naming it. -/
theorem c8_get_model_witness :
    get_model "RandomForest" = .ok .randomForest
    ∧ (get_model "svm" = .error (.unknownStrategy (unknown_model_msg "svm"))
        ∧ List.IsInfix "svm".data (unknown_model_msg "svm").data) :=
  ⟨c8_get_model.1 "RandomForest" (by decide), c8_get_model.2 "svm" (by decide)⟩

/-- The column view of the dashboard's merged data frame: its ordered
column names and which columns carry a numeric dtype. -/
structure DFCols where
  cols : List String
  numeric : String → Bool

/-- The metadata columns excluded by `get_question_columns`. -/
def exclude_cols : List String :=
  ["emp_id", "srno", "Final_Verdict", "dept", "location", "position"]

/-- Model of `get_question_columns`: every column that is not excluded and
is numeric, in frame order. -/
def get_question_columns (df : DFCols) : List String :=
  df.cols.filter (fun c => decide (c ∉ exclude_cols) && df.numeric c)

/-- The question-column list as the analytics code consumes it
(`get_question_columns(df)[:20]` in `generate_visualizations`). -/
def question_cols (df : DFCols) : List String := (get_question_columns df).take 20

/-- Claim C7: the question columns are exactly the numeric, non-metadata
columns, and the list the analytics consume is that list capped at the
fixed maximum of 20 (the cap is the identity whenever at most 20 columns
qualify). -/
theorem c7_question_columns (df : DFCols) :
    (∀ c, c ∈ get_question_columns df
        ↔ (c ∈ df.cols ∧ df.numeric c = true ∧ c ∉ exclude_cols))
    ∧ List.IsPrefix (question_cols df) (get_question_columns df)
    ∧ (question_cols df).length ≤ 20
    ∧ ((get_question_columns df).length ≤ 20 → question_cols df = get_question_columns df) := by
  refine ⟨fun c => ?_, List.take_prefix _ _, ?_, fun h => List.take_of_length_le h⟩
  · simp only [get_question_columns, List.mem_filter, Bool.and_eq_true, decide_eq_true_eq]
    tauto
  · rw [question_cols, List.length_take]
    exact Nat.min_le_left _ _

/-- The columns of the concrete survey data, with one non-numeric column. -/
def demoDF : DFCols :=
  ⟨["emp_id", "srno", "Manager_Trust", "Feedback_Received", "dept", "notes"],
   fun c => decide (c ≠ "notes") && decide (c ≠ "dept")⟩

/-- Claim C7 witness: on the concrete frame, membership matches the
numeric-and-not-excluded characterization and the cap is the identity. -/
theorem c7_question_columns_witness :
    ("Manager_Trust" ∈ get_question_columns demoDF
      ↔ ("Manager_Trust" ∈ demoDF.cols ∧ demoDF.numeric "Manager_Trust" = true
          ∧ "Manager_Trust" ∉ exclude_cols))
    ∧ question_cols demoDF = get_question_columns demoDF :=
  ⟨(c7_question_columns demoDF).1 "Manager_Trust",
   (c7_question_columns demoDF).2.2.2 (by decide)⟩

/-- One alert rule's configuration (the values of the `alert_columns` dict:
`type`, `threshold`, `label`). -/
structure RuleMeta where
  dir : String
  threshold : ℚ
  label : String
deriving DecidableEq

/-- A produced alert, as the content of the formatted alert string:
grouping dimension, group value, LOW/HIGH severity word, rule display
label, observed mean. -/
structure Alert where
  dim : String
  group : String
  sev : String
  label : String
  score : ℚ
deriving DecidableEq

/-- The aggregate view `generate_alerts` works on: which feature columns
the frame has, the group values each grouping dimension yields (in the
order pandas `groupby(...).mean().items()` yields them), and the group
mean of each column. -/
structure AggData where
  cols : List String
  groups : String → List String
  mean : String → String → String → ℚ

/-- One rule applied to one group: emit an alert when the direction /
threshold condition holds (`low`: mean strictly below; `high`: mean
strictly above), as the `if/elif` of `generate_alerts` does. -/
def evalRuleGroup (d : AggData) (dim col : String) (meta : RuleMeta) (g : String) :
    Option Alert :=
  if meta.dir = "low" ∧ d.mean dim col g < meta.threshold then
    some ⟨dim, g, "LOW", meta.label, d.mean dim col g⟩
  else if meta.dir = "high" ∧ d.mean dim col g > meta.threshold then
    some ⟨dim, g, "HIGH", meta.label, d.mean dim col g⟩
  else none

/-- Model of `generate_alerts`: for each grouping dimension in order, for
each configured rule in order, skip features absent from the data, and
emit one alert per group whose mean violates the threshold, in group
order. -/
def generate_alerts (params : List String) (rules : List (String × RuleMeta))
    (d : AggData) : List Alert :=
  params.flatMap (fun dim =>
    rules.flatMap (fun r =>
      if r.1 ∈ d.cols then
        (d.groups dim).flatMap (fun g => (evalRuleGroup d dim r.1 r.2 g).toList)
      else []))

/-- The `alert_columns` dict of `generate_alerts`, in insertion order. -/
def alert_columns : List (String × RuleMeta) :=
  [("12_Month_Commitment", ⟨"low", 3, "12-Month Commitment"⟩),
   ("Job_Search_Thoughts", ⟨"high", 7/2, "Job Search Thoughts"⟩),
   ("Growth_Opportunities", ⟨"low", 3, "Growth Opportunities"⟩),
   ("Manager_Trust", ⟨"low", 3, "Trust in Manager"⟩),
   ("Feedback_Received", ⟨"low", 3, "Feedback Received"⟩)]

/-- The fixed grouping-dimension enumeration of `generate_alerts`. -/
def master_params : List String := ["dept", "position", "location"]

/-- The spec's direction/threshold condition for one rule on one mean. -/
def ruleHolds (meta : RuleMeta) (score : ℚ) : Prop :=
  (meta.dir = "low" ∧ score < meta.threshold)
  ∨ (meta.dir = "high" ∧ score > meta.threshold)

theorem evalRuleGroup_shape {d : AggData} {dim col : String} {meta : RuleMeta}
    {g : String} {a : Alert} (h : a ∈ (evalRuleGroup d dim col meta g).toList) :
    a.dim = dim ∧ a.label = meta.label ∧ a.group = g := by
  rw [evalRuleGroup] at h
  split at h
  · simp at h
    subst h
    exact ⟨rfl, rfl, rfl⟩
  split at h
  · simp at h
    subst h
    exact ⟨rfl, rfl, rfl⟩
  · simp at h

theorem evalRuleGroup_eq_of_holds {d : AggData} {dim col : String} {meta : RuleMeta}
    {g : String} (h : ruleHolds meta (d.mean dim col g)) :
    (evalRuleGroup d dim col meta g).toList
      = [⟨dim, g, if meta.dir = "low" then "LOW" else "HIGH", meta.label, d.mean dim col g⟩] := by
  rcases h with ⟨hdir, hlt⟩ | ⟨hdir, hgt⟩
  · rw [evalRuleGroup, if_pos ⟨hdir, hlt⟩, if_pos hdir]
    rfl
  · have hne : ¬(meta.dir = "low" ∧ d.mean dim col g < meta.threshold) := by
      rintro ⟨h1, _⟩
      rw [hdir] at h1
      exact absurd h1 (by decide)
    rw [evalRuleGroup, if_neg hne, if_pos ⟨hdir, hgt⟩,
      if_neg (fun h1 => absurd (hdir ▸ h1) (by decide))]
    rfl

theorem evalRuleGroup_eq_of_not_holds {d : AggData} {dim col : String} {meta : RuleMeta}
    {g : String} (h : ¬ruleHolds meta (d.mean dim col g)) :
    (evalRuleGroup d dim col meta g).toList = [] := by
  rw [evalRuleGroup, if_neg (fun hc => h (Or.inl hc)), if_neg (fun hc => h (Or.inr hc))]
  rfl

theorem countP_flatMap_zero {α β : Type} {l : List α} {f : α → List β} {p : β → Bool}
    (h : ∀ a ∈ l, (f a).countP p = 0) : (l.flatMap f).countP p = 0 := by
  induction l with
  | nil => rfl
  | cons a t ih =>
    rw [List.flatMap_cons, List.countP_append, h a (by simp),
      ih (fun x hx => h x (by simp [hx]))]

theorem countP_flatMap_single {α β : Type} {l : List α} {f : α → List β} {p : β → Bool}
    {x : α} (hx : x ∈ l) (hnd : l.Nodup)
    (h0 : ∀ y ∈ l, y ≠ x → (f y).countP p = 0) :
    (l.flatMap f).countP p = (f x).countP p := by
  induction l with
  | nil => cases hx
  | cons a t ih =>
    rw [List.flatMap_cons, List.countP_append]
    rcases List.mem_cons.mp hx with rfl | hxt
    · have hz : ∀ y ∈ t, (f y).countP p = 0 := fun y hy =>
        h0 y (by simp [hy]) (fun hyx => (List.nodup_cons.mp hnd).1 (hyx ▸ hy))
      rw [countP_flatMap_zero hz, Nat.add_zero]
    · have ha : (f a).countP p = 0 :=
        h0 a (by simp) (fun hax => (List.nodup_cons.mp hnd).1 (hax ▸ hxt))
      rw [ha, ih hxt (List.nodup_cons.mp hnd).2
        (fun y hy hyx => h0 y (by simp [hy]) hyx), Nat.zero_add]

instance ruleHoldsDec (meta : RuleMeta) (s : ℚ) : Decidable (ruleHolds meta s) :=
  inferInstanceAs (Decidable ((meta.dir = "low" ∧ s < meta.threshold)
    ∨ (meta.dir = "high" ∧ s > meta.threshold)))

theorem mem_inner_dim {rules : List (String × RuleMeta)} {d : AggData} {dm : String}
    {a : Alert}
    (h : a ∈ rules.flatMap (fun r =>
      if r.1 ∈ d.cols then
        (d.groups dm).flatMap (fun g => (evalRuleGroup d dm r.1 r.2 g).toList)
      else [])) :
    a.dim = dm ∧ ∃ r ∈ rules, a.label = r.2.label ∧ ∃ g ∈ d.groups dm, a.group = g := by
  rcases List.mem_flatMap.mp h with ⟨r, hr, ha⟩
  by_cases hc : r.1 ∈ d.cols
  · rw [if_pos hc] at ha
    rcases List.mem_flatMap.mp ha with ⟨g, hg, hag⟩
    obtain ⟨h1, h2, h3⟩ := evalRuleGroup_shape hag
    exact ⟨h1, r, hr, h2, g, hg, h3⟩
  · rw [if_neg hc] at ha
    cases ha

/-- The concrete aggregate view of the spec's Alert Rule Engine scenario:
the frame has a `Manager_Trust` column and the `dept` dimension yields the
groups `Ops` (mean 3.6) and `Sales` (mean 2.4). -/
def sample_agg : AggData :=
  ⟨["Manager_Trust"],
   fun dm => if dm = "dept" then ["Ops", "Sales"] else [],
   fun _ _ g => if g = "Sales" then 12/5 else 18/5⟩

/-- Claim C4: the engine emits exactly one alert per (dimension, rule,
group) triple whose feature is present in the data and whose strict
direction/threshold condition holds on the group mean, and none otherwise
(in particular none for an absent feature); on the spec's concrete
scenario it emits exactly the one alert for Sales. -/
theorem c4_generate_alerts :
    (∀ (params : List String) (rules : List (String × RuleMeta)) (d : AggData)
        (dm col : String) (meta : RuleMeta) (g : String),
      params.Nodup → (rules.map (fun r => r.2.label)).Nodup → (d.groups dm).Nodup →
      dm ∈ params → (col, meta) ∈ rules → g ∈ d.groups dm →
      (generate_alerts params rules d).countP
          (fun a => decide (a.dim = dm) && decide (a.label = meta.label)
              && decide (a.group = g))
        = if col ∈ d.cols ∧ ruleHolds meta (d.mean dm col g) then 1 else 0)
    ∧ generate_alerts ["dept"] [("Manager_Trust", ⟨"low", 3, "Trust in Manager"⟩)]
        sample_agg
      = [⟨"dept", "Sales", "LOW", "Trust in Manager", 12/5⟩] := by
  constructor
  · intro params rules d dm col meta g hp hl hg hdim hr hgg
    rw [generate_alerts]
    rw [countP_flatMap_single hdim hp (fun dm' hdm' hne => by
      rw [List.countP_eq_zero]
      intro a ha
      have hd := (mem_inner_dim ha).1
      simp [hd, hne])]
    rw [countP_flatMap_single hr (List.Nodup.of_map _ hl) (fun r' hr' hne => by
      have hlab : r'.2.label ≠ meta.label := by
        intro heq
        exact hne (List.inj_on_of_nodup_map hl hr' hr heq)
      rw [List.countP_eq_zero]
      intro a ha
      by_cases hc : r'.1 ∈ d.cols
      · rw [if_pos hc] at ha
        rcases List.mem_flatMap.mp ha with ⟨g', hg', hag⟩
        have := (evalRuleGroup_shape hag).2.1
        simp [this, hlab]
      · rw [if_neg hc] at ha
        cases ha)]
    by_cases hc : col ∈ d.cols
    · rw [if_pos hc]
      rw [countP_flatMap_single hgg hg (fun g' hg' hne => by
        rw [List.countP_eq_zero]
        intro a ha
        have := (evalRuleGroup_shape ha).2.2
        simp [this, hne])]
      by_cases hh : ruleHolds meta (d.mean dm col g)
      · rw [evalRuleGroup_eq_of_holds hh,
          if_pos (show col ∈ d.cols ∧ ruleHolds meta (d.mean dm col g) from ⟨hc, hh⟩)]
        simp [List.countP_cons]
      · rw [evalRuleGroup_eq_of_not_holds hh,
          if_neg (show ¬(col ∈ d.cols ∧ ruleHolds meta (d.mean dm col g)) from
            fun hcon => hh hcon.2)]
        rfl
    · rw [if_neg hc,
        if_neg (show ¬(col ∈ d.cols ∧ ruleHolds meta (d.mean dm col g)) from
          fun hcon => hc hcon.1)]
      rfl
  · simp [generate_alerts, sample_agg, evalRuleGroup]
    norm_num

/-- Claim C4 witness: on the scenario data, the (dept, Manager_Trust,
Sales) triple gets exactly the count its threshold condition dictates. -/
theorem c4_generate_alerts_witness :
    (generate_alerts ["dept"] [("Manager_Trust", ⟨"low", 3, "Trust in Manager"⟩)]
        sample_agg).countP
        (fun a => decide (a.dim = "dept") && decide (a.label = "Trust in Manager")
            && decide (a.group = "Sales"))
      = if "Manager_Trust" ∈ sample_agg.cols
            ∧ ruleHolds ⟨"low", 3, "Trust in Manager"⟩
                (sample_agg.mean "dept" "Manager_Trust" "Sales")
        then 1 else 0 :=
  c4_generate_alerts.1 ["dept"] [("Manager_Trust", ⟨"low", 3, "Trust in Manager"⟩)]
    sample_agg "dept" "Manager_Trust" ⟨"low", 3, "Trust in Manager"⟩ "Sales"
    (by decide) (by decide) (by decide) (by decide) (by decide) (by decide)

/-- The configured rules' display labels, in configuration order. -/
def ruleLabels (rules : List (String × RuleMeta)) : List String :=
  rules.map (fun r => r.2.label)

/-- The position of an alert in the engine's enumeration: index of its
grouping dimension in the dimension enumeration, index of its rule in the
configuration, index of its group in the group order of its dimension. -/
def alertRank (params : List String) (rules : List (String × RuleMeta))
    (d : AggData) (a : Alert) : ℕ × ℕ × ℕ :=
  (params.indexOf a.dim, (ruleLabels rules).indexOf a.label,
    (d.groups a.dim).indexOf a.group)

/-- Strict lexicographic order on rank triples. -/
def lex3 (x y : ℕ × ℕ × ℕ) : Prop :=
  x.1 < y.1 ∨ (x.1 = y.1 ∧ (x.2.1 < y.2.1 ∨ (x.2.1 = y.2.1 ∧ x.2.2 < y.2.2)))

theorem pairwise_flatMap {α β : Type} {R : β → β → Prop} {l : List α} {f : α → List β}
    (h1 : ∀ a ∈ l, (f a).Pairwise R)
    (h2 : l.Pairwise (fun a b => ∀ x ∈ f a, ∀ y ∈ f b, R x y)) :
    (l.flatMap f).Pairwise R := by
  induction l with
  | nil => exact List.Pairwise.nil
  | cons a t ih =>
    rw [List.flatMap_cons, List.pairwise_append]
    obtain ⟨hat, ht⟩ := List.pairwise_cons.mp h2
    exact ⟨h1 a (by simp), ih (fun x hx => h1 x (by simp [hx])) ht,
      fun x hx y hy => by
        rcases List.mem_flatMap.mp hy with ⟨b, hb, hyb⟩
        exact hat b hb x hx y hyb⟩

theorem nodup_pairwise_idx {α : Type} [DecidableEq α] {l : List α} (h : l.Nodup) :
    l.Pairwise (fun a b => l.indexOf a < l.indexOf b) := by
  rw [List.pairwise_iff_getElem]
  intro i j hi hj hij
  rw [List.indexOf_getElem h i hi, List.indexOf_getElem h j hj]
  exact hij

theorem mem_inner_rule {d : AggData} {dm : String} {r : String × RuleMeta} {a : Alert}
    (h : a ∈ (if r.1 ∈ d.cols then
        (d.groups dm).flatMap (fun g => (evalRuleGroup d dm r.1 r.2 g).toList)
      else [])) :
    a.dim = dm ∧ a.label = r.2.label ∧ ∃ g ∈ d.groups dm, a.group = g := by
  by_cases hc : r.1 ∈ d.cols
  · rw [if_pos hc] at h
    rcases List.mem_flatMap.mp h with ⟨g, hgm, hag⟩
    obtain ⟨h1, h2, h3⟩ := evalRuleGroup_shape hag
    exact ⟨h1, h2, g, hgm, h3⟩
  · rw [if_neg hc] at h
    cases h

/-- Claim C5: on identical input the engine's output order is the fixed
deterministic enumeration — grouping dimension first (in the fixed order
dept, position, location of the code's `master_params`), then rule in
configuration order, then group in the aggregate's group order: the alert
list is strictly sorted by that rank. -/
theorem c5_alert_order :
    (∀ (params : List String) (rules : List (String × RuleMeta)) (d : AggData),
      params.Nodup → (ruleLabels rules).Nodup → (∀ dm, (d.groups dm).Nodup) →
      (generate_alerts params rules d).Pairwise
        (fun a b => lex3 (alertRank params rules d a) (alertRank params rules d b)))
    ∧ master_params = ["dept", "position", "location"] := by
  refine ⟨?_, rfl⟩
  intro params rules d hp hl hg
  rw [generate_alerts]
  apply pairwise_flatMap
  · intro dm hdm
    apply pairwise_flatMap
    · intro r hr
      by_cases hc : r.1 ∈ d.cols
      · rw [if_pos hc]
        apply pairwise_flatMap
        · intro g hgm
          cases hE : evalRuleGroup d dm r.1 r.2 g
          · exact List.Pairwise.nil
          · exact List.pairwise_singleton _ _
        · refine List.Pairwise.imp ?_ (nodup_pairwise_idx (hg dm))
          intro g g' hgg x hx y hy
          obtain ⟨hxd, hxl, hxg⟩ := evalRuleGroup_shape hx
          obtain ⟨hyd, hyl, hyg⟩ := evalRuleGroup_shape hy
          refine Or.inr ⟨?_, Or.inr ⟨?_, ?_⟩⟩
          · show params.indexOf x.dim = params.indexOf y.dim
            rw [hxd, hyd]
          · show (ruleLabels rules).indexOf x.label
                = (ruleLabels rules).indexOf y.label
            rw [hxl, hyl]
          · show (d.groups x.dim).indexOf x.group < (d.groups y.dim).indexOf y.group
            rw [hxd, hyd, hxg, hyg]
            exact hgg
      · rw [if_neg hc]
        exact List.Pairwise.nil
    · have h0 : (rules.map (fun r => r.2.label)).Pairwise
          (fun a b => (rules.map (fun r => r.2.label)).indexOf a
            < (rules.map (fun r => r.2.label)).indexOf b) := nodup_pairwise_idx hl
      refine List.Pairwise.imp ?_ (List.pairwise_map.mp h0)
      intro r1 r2 hrr x hx y hy
      obtain ⟨hxd, hxl, _⟩ := mem_inner_rule hx
      obtain ⟨hyd, hyl, _⟩ := mem_inner_rule hy
      refine Or.inr ⟨?_, Or.inl ?_⟩
      · show params.indexOf x.dim = params.indexOf y.dim
        rw [hxd, hyd]
      · show (ruleLabels rules).indexOf x.label < (ruleLabels rules).indexOf y.label
        rw [hxl, hyl]
        exact hrr
  · refine List.Pairwise.imp ?_ (nodup_pairwise_idx hp)
    intro dm dm' hdd x hx y hy
    have hxd := (mem_inner_dim hx).1
    have hyd := (mem_inner_dim hy).1
    refine Or.inl ?_
    show params.indexOf x.dim < params.indexOf y.dim
    rw [hxd, hyd]
    exact hdd

/-- Claim C5 witness: on the code's own dimension enumeration and rule
configuration over the scenario aggregate, the emitted list is sorted by
the deterministic rank. -/
theorem c5_alert_order_witness :
    (generate_alerts master_params alert_columns sample_agg).Pairwise
      (fun a b => lex3 (alertRank master_params alert_columns sample_agg a)
        (alertRank master_params alert_columns sample_agg b)) :=
  c5_alert_order.1 master_params alert_columns sample_agg
    (by decide) (by decide)
    (fun dm => by
      by_cases h : dm = "dept" <;> simp [sample_agg, h])

end EmpAttrition
